import Mathlib

/-!
Shallow embedding of the reconstruction core of the archia repository:
the single-image depth estimator (`src/ai/depthEstimator.js`) and the
radially-symmetric pottery reconstruction engine
(`src/reconstruction/potteryRebuilder.js`).

JavaScript numbers are modelled as real numbers, JavaScript arrays as lists,
the mutable `this.fragments` array as an explicit `List Fragment` value that is
threaded through the methods.  `THREE.LatheGeometry(points, segments)` plus the
material descriptor is modelled by the data that determines it: the profile
points handed to the lathe, the segment count and the material parameters.
-/

/-- A 3D point `{x, y, z}` as produced by `depthToPointCloud`. -/
structure Point3 where
  x : ℝ
  y : ℝ
  z : ℝ

/-- One radius-profile sample `{r, y}` (radius at height). -/
structure ProfilePoint where
  r : ℝ
  y : ℝ

/-- The comparator `(a, b) => a.y - b.y` used with the (stable) JavaScript
`Array.prototype.sort`: ascending order on the `y` component. -/
def leY (a b : ProfilePoint) : Prop := a.y ≤ b.y

/-- Strict version of `leY`, used to identify sorted lists with distinct heights. -/
def ltY (a b : ProfilePoint) : Prop := a.y < b.y

noncomputable instance : DecidableRel leY := fun a b => Real.decidableLE a.y b.y

instance : IsTotal ProfilePoint leY := ⟨fun a b => le_total a.y b.y⟩

instance : IsTrans ProfilePoint leY := ⟨fun _ _ _ h h' => le_trans h h'⟩

instance : IsAntisymm ProfilePoint ltY := ⟨fun _ _ h h' => absurd h' (lt_asymm h)⟩

/-- JavaScript `o || d` for an optional string operand: `undefined` and the empty
string are falsy, any other string is returned as is. -/
def jsOrString (o : Option String) (d : String) : String :=
  match o with
  | none => d
  | some s => if s = "" then d else s

/-- JavaScript `o || d` for an optional numeric operand: `undefined` and `0` are
falsy, any other number is returned as is. -/
noncomputable def jsOrReal (o : Option ℝ) (d : ℝ) : ℝ :=
  match o with
  | none => d
  | some v => if v = 0 then d else v

/-- A fragment registered with the reconstructor (`addFragment`, lines 9-17):
point cloud, classification tag, confidence and the `Date.now()` timestamp. -/
structure Fragment where
  points : List Point3
  type : String
  confidence : ℝ
  timestamp : ℕ

/-- The optional `metadata` argument of `addFragment`. -/
structure FragmentMetadata where
  fragmentType : Option String
  confidence : Option ℝ

/-- `PotteryReconstructor.addFragment(pointCloud, metadata)`: pushes a new
fragment onto `this.fragments`.  `Date.now()` is passed in as `now`. -/
noncomputable def addFragment (fragments : List Fragment) (pointCloud : List Point3)
    (metadata : FragmentMetadata) (now : ℕ) : List Fragment :=
  fragments ++ [{ points := pointCloud,
                  type := jsOrString metadata.fragmentType "unknown",
                  confidence := jsOrReal metadata.confidence 0.5,
                  timestamp := now }]

/-- `PotteryReconstructor.smoothProfile(profile, windowSize = 5)` (lines 34-60):
moving average with a window clipped at the profile boundaries
(`start = max(0, i - half)`, `end = min(length, i + half + 1)`); profiles
shorter than the window are returned unsmoothed.  `max(0, i - half)` is the
truncated natural subtraction `i - half`. -/
noncomputable def smoothProfile (profile : List ProfilePoint) (windowSize : ℕ := 5) :
    List ProfilePoint :=
  if profile.length < windowSize then profile
  else
    let half := windowSize / 2
    (List.range profile.length).map fun i =>
      let start := i - half
      let stop := min profile.length (i + half + 1)
      { r := (∑ j ∈ Finset.Ico start stop, (profile.getD j ⟨0, 0⟩).r) / ((stop - start : ℕ) : ℝ),
        y := (∑ j ∈ Finset.Ico start stop, (profile.getD j ⟨0, 0⟩).y) / ((stop - start : ℕ) : ℝ) }

/-- `PotteryReconstructor.extractSymmetryProfile(points)` (lines 19-32):
`r = sqrt(x*x + z*z)` paired with `y`, sorted ascending by `y` (stable
JavaScript sort, modelled by the stable `insertionSort`), then smoothed with
the default window 5. -/
noncomputable def extractSymmetryProfile (points : List Point3) : List ProfilePoint :=
  let profile := points.map fun point =>
    { r := Real.sqrt (point.x * point.x + point.z * point.z), y := point.y : ProfilePoint }
  smoothProfile (List.insertionSort leY profile)

/-- The bucket index `Math.round(y / bucketHeight)` with `bucketHeight = 0.5`
(line 69).  `Math.round` rounds half towards positive infinity, exactly as
Mathlib's `round`. -/
noncomputable def bucketKey (y : ℝ) : ℤ := round (y / 0.5)

/-- The keys of the JavaScript `Map` built in `mergeProfiles` (lines 65-74), in
insertion order: order of first appearance while scanning `allPoints`. -/
noncomputable def bucketKeysList (points : List ProfilePoint) : List ℤ :=
  points.foldl
    (fun keys point =>
      if bucketKey point.y ∈ keys then keys else keys ++ [bucketKey point.y]) []

/-- The radii collected in the bucket of key `key`, in scan order. -/
noncomputable def bucketRadii (points : List ProfilePoint) (key : ℤ) : List ℝ :=
  (points.filter fun point => bucketKey point.y == key).map (·.r)

/-- `radii.reduce((sum, r) => sum + r, 0) / radii.length` (line 78). -/
noncomputable def avg (radii : List ℝ) : ℝ :=
  radii.foldl (fun sum r => sum + r) 0 / radii.length

/-- The `{r: avgR, y: key * bucketHeight}` entry pushed for one bucket
(lines 78-80). -/
noncomputable def bucketEntry (points : List ProfilePoint) (key : ℤ) : ProfilePoint :=
  { r := avg (bucketRadii points key), y := (key : ℝ) * 0.5 }

/-- `PotteryReconstructor.mergeProfiles(profiles)` (lines 62-86): flatten,
bucket by `Math.round(y / 0.5)`, average each bucket (one entry per key in
`Map` insertion order), sort by `y`, then re-smooth with window 7. -/
noncomputable def mergeProfiles (profiles : List (List ProfilePoint)) : List ProfilePoint :=
  let allPoints := profiles.flatten
  let merged := (bucketKeysList allPoints).map (bucketEntry allPoints)
  smoothProfile (List.insertionSort leY merged) 7

/-- The `THREE.MeshStandardMaterial` parameters used by the mesh builders. -/
structure MeshMaterial where
  color : ℕ
  metalness : ℝ
  roughness : ℝ
  doubleSide : Bool

/-- A 2D lathe profile point (`THREE.Vector2`). -/
structure Vec2 where
  x : ℝ
  y : ℝ

/-- A lathe mesh: the data determining `THREE.LatheGeometry(points, segments)`
plus its material. -/
structure Mesh where
  lathePoints : List Vec2
  segments : ℕ
  material : MeshMaterial

/-- `PotteryReconstructor.buildDefaultPottery()` (lines 110-127): the fixed
default vase, `r = 2 + sin(t * pi) * 0.5` with `t = i / 10` and `y = i` for
`i = 0..10`, revolved with 64 segments.  Its material does not set `side`
(so it is single-sided). -/
noncomputable def buildDefaultPottery : Mesh :=
  let points := (List.range 11).map fun i : ℕ =>
    { x := 2 + Real.sin ((i : ℝ) / 10 * Real.pi) * 0.5, y := (i : ℝ) : Vec2 }
  { lathePoints := points, segments := 64,
    material := { color := 0xc2a070, metalness := 0.1, roughness := 0.8, doubleSide := false } }

/-- `PotteryReconstructor.buildMeshFromProfile(profile, segments = 64)`
(lines 88-108): falls back to the default vase when the profile has fewer than
3 samples, otherwise lathes the profile with a double-sided material. -/
noncomputable def buildMeshFromProfile (profile : List ProfilePoint) (segments : ℕ := 64) :
    Mesh :=
  let points := profile.map fun p => { x := p.r, y := p.y : Vec2 }
  if points.length < 3 then buildDefaultPottery
  else { lathePoints := points, segments := segments,
         material := { color := 0xc2a070, metalness := 0.1, roughness := 0.8,
                       doubleSide := true } }

/-- `PotteryReconstructor.applyFragmentConstraints(mesh)` (lines 152-163):
computes the rim/base presence flags and discards them; the mesh passes
through unchanged (the method only logs). -/
def applyFragmentConstraints (fragments : List Fragment) (mesh : Mesh) : Mesh :=
  let _hasRim := fragments.any fun f => f.type == "rim"
  let _hasBase := fragments.any fun f => f.type == "base"
  mesh

/-- `PotteryReconstructor.reconstruct()` (lines 129-150), as a function of the
current `this.fragments`. -/
noncomputable def reconstruct (fragments : List Fragment) : Mesh :=
  if fragments.length = 0 then buildDefaultPottery
  else
    let profiles := fragments.map fun fragment => extractSymmetryProfile fragment.points
    let finalProfile := mergeProfiles profiles
    let mesh := buildMeshFromProfile finalProfile
    applyFragmentConstraints fragments mesh

/-- The `reconstruct()` method as a state transformer on `this.fragments`: the
body only reads the fragment list (it never assigns to `this.fragments`), so
the returned state is the incoming one. -/
noncomputable def reconstructMethod (fragments : List Fragment) : Mesh × List Fragment :=
  (reconstruct fragments, fragments)

/-- An RGB raster image (`tf.browser.fromPixels` input), height x width x 3. -/
structure RGBImage where
  h : ℕ
  w : ℕ
  val : ℕ → ℕ → Fin 3 → ℝ

/-- A single-channel grid (a tensor of shape `[h, w, 1]`). -/
structure Grid where
  h : ℕ
  w : ℕ
  val : ℕ → ℕ → ℝ

/-- Reading a grid with the zero padding used by `'same'` convolutions. -/
def padVal (g : Grid) (i j : ℤ) : ℝ :=
  if 0 ≤ i ∧ i < (g.h : ℤ) ∧ 0 ≤ j ∧ j < (g.w : ℤ) then g.val i.toNat j.toNat else 0

/-- `tf.conv2d(input, kernel, 1, 'same')` for an odd kernel of half-height `rh`
and half-width `rw`, the kernel given in offset coordinates. -/
noncomputable def conv2dSame (g : Grid) (rh rw : ℕ) (k : ℤ → ℤ → ℝ) : Grid :=
  { h := g.h, w := g.w,
    val := fun i j =>
      ∑ di ∈ Finset.Icc (-(rh : ℤ)) (rh : ℤ), ∑ dj ∈ Finset.Icc (-(rw : ℤ)) (rw : ℤ),
        padVal g ((i : ℤ) + di) ((j : ℤ) + dj) * k di dj }

/-- The Sobel kernel `[[-1,0,1],[-2,0,2],[-1,0,1]]` in offset coordinates. -/
def sobelXKernel (di dj : ℤ) : ℝ :=
  if di = -1 then (if dj = -1 then -1 else if dj = 0 then 0 else 1)
  else if di = 0 then (if dj = -1 then -2 else if dj = 0 then 0 else 2)
  else (if dj = -1 then -1 else if dj = 0 then 0 else 1)

/-- The Sobel kernel `[[-1,-2,-1],[0,0,0],[1,2,1]]` in offset coordinates. -/
def sobelYKernel (di dj : ℤ) : ℝ :=
  if di = -1 then (if dj = -1 then -1 else if dj = 0 then -2 else -1)
  else if di = 0 then 0
  else (if dj = -1 then 1 else if dj = 0 then 2 else 1)

/-- The central-difference kernel `[-1, 0, 1]` in offset coordinates. -/
def gradKernel (d : ℤ) : ℝ := if d = -1 then -1 else if d = 0 then 0 else 1

/-- `DepthEstimator.applySobelEdges(input)` (lines 69-95): gradient magnitude
`sqrt(gx^2 + gy^2)` of the two Sobel convolutions. -/
noncomputable def applySobelEdges (input : Grid) : Grid :=
  let gx := conv2dSame input 1 1 sobelXKernel
  let gy := conv2dSame input 1 1 sobelYKernel
  { h := input.h, w := input.w,
    val := fun i j => Real.sqrt (gx.val i j ^ 2 + gy.val i j ^ 2) }

/-- `DepthEstimator.computeGradientDepth(input)` (lines 102-126): gradient
magnitude of the `[[-1,0,1]]` (1x3) and `[[-1],[0],[1]]` (3x1) convolutions. -/
noncomputable def computeGradientDepth (input : Grid) : Grid :=
  let dx := conv2dSame input 0 1 fun _ dj => gradKernel dj
  let dy := conv2dSame input 1 0 fun di _ => gradKernel di
  { h := input.h, w := input.w,
    val := fun i j => Real.sqrt (dx.val i j ^ 2 + dy.val i j ^ 2) }

/-- The unnormalized Gaussian kernel entry of `gaussianBlur` (lines 140-152):
`exp(-((i-center)^2 + (j-center)^2) / (2*sigma^2))` with `sigma = size/3` and
`center = floor(size/2)`. -/
noncomputable def gaussKernelEntry (kernelSize : ℕ) (i j : ℕ) : ℝ :=
  let sigma : ℝ := (kernelSize : ℝ) / 3
  let center := kernelSize / 2
  Real.exp (-(((i : ℝ) - (center : ℝ)) * ((i : ℝ) - (center : ℝ)) +
      ((j : ℝ) - (center : ℝ)) * ((j : ℝ) - (center : ℝ))) / (2 * sigma * sigma))

/-- The normalizing sum of the Gaussian kernel. -/
noncomputable def gaussKernelSum (kernelSize : ℕ) : ℝ :=
  ∑ i ∈ Finset.range kernelSize, ∑ j ∈ Finset.range kernelSize, gaussKernelEntry kernelSize i j

/-- `DepthEstimator.gaussianBlur(input, kernelSize)` (lines 134-165). -/
noncomputable def gaussianBlur (input : Grid) (kernelSize : ℕ := 5) : Grid :=
  let center := kernelSize / 2
  conv2dSame input center center fun di dj =>
    gaussKernelEntry kernelSize (di + (center : ℤ)).toNat (dj + (center : ℤ)).toNat /
      gaussKernelSum kernelSize

/-- The finite set of in-range values of a grid (for `tensor.min()`/`.max()`). -/
noncomputable def gridVals (g : Grid) : Finset ℝ :=
  (Finset.range g.h ×ˢ Finset.range g.w).image fun p => g.val p.1 p.2

/-- `tensor.min()` over the whole grid (junk value 0 on an empty grid). -/
noncomputable def gridMin (g : Grid) : ℝ :=
  if h : (gridVals g).Nonempty then (gridVals g).min' h else 0

/-- `tensor.max()` over the whole grid (junk value 0 on an empty grid). -/
noncomputable def gridMax (g : Grid) : ℝ :=
  if h : (gridVals g).Nonempty then (gridVals g).max' h else 0

/-- Steps 1-7 of `DepthEstimator.estimateDepth` (lines 30-53): grayscale,
normalize by 255, Sobel edges inverted into depth, gradient shading cue,
`0.6/0.4` combination, Gaussian blur with kernel size 3. -/
noncomputable def smoothedDepth (img : RGBImage) : Grid :=
  let grayscale : Grid :=
    { h := img.h, w := img.w, val := fun i j => (img.val i j 0 + img.val i j 1 + img.val i j 2) / 3 }
  let normalized : Grid :=
    { h := grayscale.h, w := grayscale.w, val := fun i j => grayscale.val i j / 255 }
  let edges := applySobelEdges normalized
  let depthFromEdges : Grid :=
    { h := edges.h, w := edges.w, val := fun i j => edges.val i j * (-1) + 1 }
  let gradientDepth := computeGradientDepth normalized
  let combinedDepth : Grid :=
    { h := depthFromEdges.h, w := depthFromEdges.w,
      val := fun i j => depthFromEdges.val i j * 0.6 + gradientDepth.val i j * 0.4 }
  gaussianBlur combinedDepth 3

/-- Step 8 of `DepthEstimator.estimateDepth` (lines 55-60): the epsilon-guarded
min-max normalization `(v - min) / (max - min + 1e-7)`. -/
noncomputable def estimateDepthCore (img : RGBImage) : Grid :=
  let smoothed := smoothedDepth img
  let mn := gridMin smoothed
  let mx := gridMax smoothed
  { h := smoothed.h, w := smoothed.w, val := fun i j => (smoothed.val i j - mn) / (mx - mn + 1e-7) }

/-- `DepthEstimator.estimateDepth(imgElement)` (lines 25-62), including the
initialization guard (lines 26-28). -/
noncomputable def estimateDepth (initialized : Bool) (img : RGBImage) : Except String Grid :=
  if initialized = false then Except.error "DepthEstimator not initialized"
  else Except.ok (estimateDepthCore img)

/-- Pinhole camera intrinsics `{fx, fy, cx, cy}`. -/
structure Intrinsics where
  fx : ℝ
  fy : ℝ
  cx : ℝ
  cy : ℝ

/-- The per-field defaulting `cameraIntrinsics?.fx || width / 2` etc. of
`depthToPointCloud` (lines 179-182). -/
noncomputable def resolveIntrinsics (cameraIntrinsics : Option Intrinsics)
    (width height : ℕ) : Intrinsics :=
  { fx := jsOrReal (cameraIntrinsics.map (·.fx)) ((width : ℝ) / 2),
    fy := jsOrReal (cameraIntrinsics.map (·.fy)) ((height : ℝ) / 2),
    cx := jsOrReal (cameraIntrinsics.map (·.cx)) ((width : ℝ) / 2),
    cy := jsOrReal (cameraIntrinsics.map (·.cy)) ((height : ℝ) / 2) }

/-- `DepthEstimator.depthToPointCloud(depthMap, cameraIntrinsics)`
(lines 173-201): raster scan over `(v, u)`, scale the depth by 10, keep pixels
with `z > 0.1` and back-project through the pinhole model. -/
noncomputable def depthToPointCloud (depthMap : Grid)
    (cameraIntrinsics : Option Intrinsics := none) : List Point3 :=
  let K := resolveIntrinsics cameraIntrinsics depthMap.w depthMap.h
  (List.range depthMap.h).flatMap fun v =>
    (List.range depthMap.w).flatMap fun u =>
      let z := depthMap.val v u * 10
      if 0.1 < z then
        [{ x := ((u : ℝ) - K.cx) * z / K.fx, y := ((v : ℝ) - K.cy) * z / K.fy, z := z }]
      else []

/-- Spec 4.4/4.5: the arithmetic mean of a list of reals. -/
noncomputable def mean (values : List ℝ) : ℝ := values.sum / values.length

/-- Spec 4.4: the smoothing window centered at index `i`, clipped at the
profile boundaries (shrinking near the ends rather than wrapping or padding). -/
def windowSlice (profile : List ProfilePoint) (i windowSize : ℕ) : List ProfilePoint :=
  let half := windowSize / 2
  (profile.drop (i - half)).take (min profile.length (i + half + 1) - (i - half))

/-- Spec 4.5 step 2: the non-empty bucket indices, in ascending order. -/
noncomputable def sortedBucketKeys (points : List ProfilePoint) : List ℤ :=
  ((points.map fun p => bucketKey p.y).toFinset).sort (· ≤ ·)

/-- Spec 4.5 steps 3-4: the `{r: avgRadius, y: bucketIndex * bucketWidth}`
sample of one bucket, with the arithmetic-mean radius. -/
noncomputable def specBucketSample (points : List ProfilePoint) (key : ℤ) : ProfilePoint :=
  { r := mean ((points.filter fun point => bucketKey point.y == key).map (·.r)),
    y := (key : ℝ) * 0.5 }

/-- Spec 4.5 steps 1-4, stated from the spec's words: one mean sample per
non-empty bucket, emitted sorted ascending by `y`. -/
noncomputable def mergedProfileSpec (points : List ProfilePoint) : List ProfilePoint :=
  (sortedBucketKeys points).map (specBucketSample points)

/-! ### Helper lemmas: sums, means and moving-average windows -/

/-- `reduce((sum, r) => sum + r, a)` is `a` plus the list sum. -/
lemma foldl_add_eq_sum (l : List ℝ) : ∀ a : ℝ, l.foldl (fun sum r => sum + r) a = a + l.sum := by
  induction l with
  | nil => intro a; simp
  | cons x xs ih => intro a; simp only [List.foldl_cons, List.sum_cons, ih]; ring

/-- The JavaScript `reduce`-based average agrees with the arithmetic mean. -/
lemma avg_eq_mean (l : List ℝ) : avg l = mean l := by
  rw [avg, mean, foldl_add_eq_sum, zero_add]

/-- A sum over `List.range` is a sum over `Finset.range`. -/
lemma list_range_map_sum {M : Type*} [AddCommMonoid M] (g : ℕ → M) (n : ℕ) :
    ((List.range n).map g).sum = ∑ i ∈ Finset.range n, g i := by
  induction n with
  | zero => simp
  | succ n ih =>
      rw [List.range_succ, List.map_append, List.sum_append, Finset.sum_range_succ, ih]
      simp

/-- The mean of `f` over the index window `[s, e)`. -/
noncomputable def meanIco (f : ℕ → ℝ) (s e : ℕ) : ℝ :=
  (∑ j ∈ Finset.Ico s e, f j) / ((e - s : ℕ) : ℝ)

/-- Cross inequality between two consecutive blocks of a monotone sequence. -/
lemma sum_Ico_cross_mul_le (f : ℕ → ℝ) (n a b c d : ℕ)
    (hf : ∀ i j, i ≤ j → j < n → f i ≤ f j) (hbc : b ≤ c) (hdn : d ≤ n) :
    (∑ i ∈ Finset.Ico a b, f i) * ((d - c : ℕ) : ℝ) ≤
      (∑ j ∈ Finset.Ico c d, f j) * ((b - a : ℕ) : ℝ) := by
  have e1 : (∑ i ∈ Finset.Ico a b, f i) * ((d - c : ℕ) : ℝ) =
      ∑ i ∈ Finset.Ico a b, ∑ _j ∈ Finset.Ico c d, f i := by
    rw [Finset.sum_mul]
    refine Finset.sum_congr rfl fun i _ => ?_
    rw [Finset.sum_const, Nat.card_Ico, nsmul_eq_mul, mul_comm]
  have e2 : (∑ j ∈ Finset.Ico c d, f j) * ((b - a : ℕ) : ℝ) =
      ∑ _i ∈ Finset.Ico a b, ∑ j ∈ Finset.Ico c d, f j := by
    rw [Finset.sum_const, Nat.card_Ico, nsmul_eq_mul, mul_comm]
  rw [e1, e2]
  refine Finset.sum_le_sum fun i hi => Finset.sum_le_sum fun j hj => ?_
  rw [Finset.mem_Ico] at hi hj
  exact hf i j (le_of_lt (lt_of_lt_of_le hi.2 (le_trans hbc hj.1)))
    (lt_of_lt_of_le hj.2 hdn)

/-- Extending a window of a monotone sequence to the right does not decrease
its mean. -/
lemma meanIco_le_right (f : ℕ → ℝ) (n s e e' : ℕ)
    (hf : ∀ i j, i ≤ j → j < n → f i ≤ f j)
    (hse : s < e) (hee : e ≤ e') (hn : e' ≤ n) :
    meanIco f s e ≤ meanIco f s e' := by
  have h1 : (0 : ℝ) < ((e - s : ℕ) : ℝ) := by
    exact_mod_cast Nat.sub_pos_of_lt hse
  have h2 : (0 : ℝ) < ((e' - s : ℕ) : ℝ) := by
    exact_mod_cast Nat.sub_pos_of_lt (lt_of_lt_of_le hse hee)
  rw [meanIco, meanIco, div_le_div_iff h1 h2]
  have hsplit : ∑ i ∈ Finset.Ico s e', f i =
      (∑ i ∈ Finset.Ico s e, f i) + ∑ i ∈ Finset.Ico e e', f i :=
    (Finset.sum_Ico_consecutive f (le_of_lt hse) hee).symm
  have hcast : ((e' - s : ℕ) : ℝ) = ((e - s : ℕ) : ℝ) + ((e' - e : ℕ) : ℝ) := by
    have h : e' - s = (e - s) + (e' - e) := by omega
    rw [h, Nat.cast_add]
  have key := sum_Ico_cross_mul_le f n s e e e' hf (le_refl e) hn
  rw [hsplit, hcast, mul_add, add_mul]
  linarith [key]

/-- Shrinking a window of a monotone sequence from the left does not decrease
its mean. -/
lemma meanIco_le_left (f : ℕ → ℝ) (n s s' e : ℕ)
    (hf : ∀ i j, i ≤ j → j < n → f i ≤ f j)
    (hss : s ≤ s') (hse : s' < e) (hn : e ≤ n) :
    meanIco f s e ≤ meanIco f s' e := by
  have h1 : (0 : ℝ) < ((e - s : ℕ) : ℝ) := by
    exact_mod_cast Nat.sub_pos_of_lt (lt_of_le_of_lt hss hse)
  have h2 : (0 : ℝ) < ((e - s' : ℕ) : ℝ) := by
    exact_mod_cast Nat.sub_pos_of_lt hse
  rw [meanIco, meanIco, div_le_div_iff h1 h2]
  have hsplit : ∑ i ∈ Finset.Ico s e, f i =
      (∑ i ∈ Finset.Ico s s', f i) + ∑ i ∈ Finset.Ico s' e, f i :=
    (Finset.sum_Ico_consecutive f hss (le_of_lt hse)).symm
  have hcast : ((e - s : ℕ) : ℝ) = ((s' - s : ℕ) : ℝ) + ((e - s' : ℕ) : ℝ) := by
    have h : e - s = (s' - s) + (e - s') := by omega
    rw [h, Nat.cast_add]
  have key := sum_Ico_cross_mul_le f n s s' s' e hf (le_refl s') hn
  rw [hsplit, hcast, mul_add, add_mul]
  linarith [key]

/-- Moving both window boundaries of a monotone sequence rightwards does not
decrease the mean. -/
lemma meanIco_mono (f : ℕ → ℝ) (n s s' e e' : ℕ)
    (hf : ∀ i j, i ≤ j → j < n → f i ≤ f j)
    (hss : s ≤ s') (hee : e ≤ e') (hse : s < e) (hse' : s' < e') (hn : e' ≤ n) :
    meanIco f s e ≤ meanIco f s' e' :=
  le_trans (meanIco_le_right f n s e e' hf hse hee hn)
    (meanIco_le_left f n s s' e' hf hss hse' hn)

/-- The mean of nonnegative values over a window is nonnegative. -/
lemma meanIco_nonneg (f : ℕ → ℝ) (s e : ℕ) (hf : ∀ j, s ≤ j → j < e → 0 ≤ f j) :
    0 ≤ meanIco f s e := by
  apply div_nonneg
  · exact Finset.sum_nonneg fun j hj =>
      hf j (Finset.mem_Ico.1 hj).1 (Finset.mem_Ico.1 hj).2
  · exact Nat.cast_nonneg _

/-- In a profile sorted by `y`, the height read at a smaller index is smaller. -/
lemma getD_y_mono (l : List ProfilePoint) (h : List.Sorted leY l) :
    ∀ i j, i ≤ j → j < l.length → (l.getD i ⟨0, 0⟩).y ≤ (l.getD j ⟨0, 0⟩).y := by
  intro i j hij hj
  rcases eq_or_lt_of_le hij with rfl | hlt
  · exact le_refl _
  · have hi : i < l.length := lt_trans hlt hj
    rw [List.getD_eq_getElem l _ hi, List.getD_eq_getElem l _ hj]
    exact List.pairwise_iff_getElem.1 h i j hi hj hlt

/-- `smoothProfile` keeps the profile length. -/
lemma smoothProfile_length (p : List ProfilePoint) (w : ℕ) :
    (smoothProfile p w).length = p.length := by
  unfold smoothProfile
  split
  · rfl
  · simp

/-- The entry of a smoothed profile at an in-range index is the mean over the
clipped window. -/
lemma smoothProfile_getD (p : List ProfilePoint) (w : ℕ) (hw : ¬p.length < w)
    (i : ℕ) (hi : i < p.length) :
    (smoothProfile p w).getD i ⟨0, 0⟩ =
      { r := meanIco (fun j => (p.getD j ⟨0, 0⟩).r) (i - w / 2) (min p.length (i + w / 2 + 1)),
        y := meanIco (fun j => (p.getD j ⟨0, 0⟩).y) (i - w / 2) (min p.length (i + w / 2 + 1)) } := by
  unfold smoothProfile
  rw [if_neg hw]
  have hlen : i < ((List.range p.length).map fun i =>
      ({ r := (∑ j ∈ Finset.Ico (i - w / 2) (min p.length (i + w / 2 + 1)),
            (p.getD j ⟨0, 0⟩).r) / ((min p.length (i + w / 2 + 1) - (i - w / 2) : ℕ) : ℝ),
         y := (∑ j ∈ Finset.Ico (i - w / 2) (min p.length (i + w / 2 + 1)),
            (p.getD j ⟨0, 0⟩).y) / ((min p.length (i + w / 2 + 1) - (i - w / 2) : ℕ) : ℝ) }
        : ProfilePoint)).length := by
    simpa using hi
  rw [List.getD_eq_getElem _ _ hlen, List.getElem_map, List.getElem_range]
  rfl

/-- `smoothProfile` preserves sortedness by height. -/
lemma smoothProfile_sorted (p : List ProfilePoint) (w : ℕ) (h : List.Sorted leY p) :
    List.Sorted leY (smoothProfile p w) := by
  by_cases hw : p.length < w
  · unfold smoothProfile
    rw [if_pos hw]
    exact h
  · have hmono := getD_y_mono p h
    unfold smoothProfile
    rw [if_neg hw]
    refine List.pairwise_iff_getElem.2 ?_
    intro i j hi hj hij
    rw [List.length_map, List.length_range] at hi hj
    rw [List.getElem_map, List.getElem_range, List.getElem_map, List.getElem_range]
    show meanIco (fun k => (p.getD k ⟨0, 0⟩).y) (i - w / 2) (min p.length (i + w / 2 + 1)) ≤
      meanIco (fun k => (p.getD k ⟨0, 0⟩).y) (j - w / 2) (min p.length (j + w / 2 + 1))
    refine meanIco_mono _ p.length _ _ _ _ hmono ?_ ?_ ?_ ?_ ?_
    · omega
    · have : i + w / 2 + 1 ≤ j + w / 2 + 1 := by omega
      exact min_le_min (le_refl _) this
    · exact lt_min (by omega) (by omega)
    · exact lt_min (by omega) (by omega)
    · exact min_le_left _ _

/-- `smoothProfile` preserves nonnegativity of the radii. -/
lemma smoothProfile_nonneg (p : List ProfilePoint) (w : ℕ)
    (h : ∀ q ∈ p, 0 ≤ q.r) : ∀ q ∈ smoothProfile p w, 0 ≤ q.r := by
  intro q hq
  unfold smoothProfile at hq
  split at hq
  · exact h q hq
  · rw [List.mem_map] at hq
    obtain ⟨i, hi, rfl⟩ := hq
    rw [List.mem_range] at hi
    show 0 ≤ meanIco (fun k => (p.getD k ⟨0, 0⟩).r) (i - w / 2) (min p.length (i + w / 2 + 1))
    refine meanIco_nonneg _ _ _ fun j _ hj => ?_
    have hjlen : j < p.length := lt_of_lt_of_le hj (min_le_left _ _)
    rw [List.getD_eq_getElem _ _ hjlen]
    exact h _ (List.getElem_mem hjlen)

/-- The extracted profile is always sorted ascending by height. -/
lemma extractSymmetryProfile_sorted (points : List Point3) :
    List.Sorted leY (extractSymmetryProfile points) :=
  smoothProfile_sorted _ _ (List.sorted_insertionSort leY _)

/-- The extracted profile has nonnegative radii. -/
lemma extractSymmetryProfile_nonneg (points : List Point3) :
    ∀ q ∈ extractSymmetryProfile points, 0 ≤ q.r := by
  apply smoothProfile_nonneg
  intro q hq
  have hq' := (List.perm_insertionSort leY _).mem_iff.1 hq
  rw [List.mem_map] at hq'
  obtain ⟨pt, _, rfl⟩ := hq'
  exact Real.sqrt_nonneg _

/-! ### Helper lemmas: the bucket map of `mergeProfiles` -/

/-- The accumulator invariant of the `bucketKeysList` fold: keys stay
duplicate-free and collect exactly the keys of the scanned points. -/
lemma bucketKeysList_aux (pts : List ProfilePoint) :
    ∀ acc : List ℤ, acc.Nodup →
      (pts.foldl
        (fun keys point =>
          if bucketKey point.y ∈ keys then keys else keys ++ [bucketKey point.y]) acc).Nodup ∧
      ∀ k, k ∈ pts.foldl
          (fun keys point =>
            if bucketKey point.y ∈ keys then keys else keys ++ [bucketKey point.y]) acc ↔
        k ∈ acc ∨ k ∈ pts.map fun p => bucketKey p.y := by
  induction pts with
  | nil =>
      intro acc hacc
      simp [hacc]
  | cons p ps ih =>
      intro acc hacc
      simp only [List.foldl_cons, List.map_cons, List.mem_cons]
      by_cases hmem : bucketKey p.y ∈ acc
      · rw [if_pos hmem]
        obtain ⟨hn, hm⟩ := ih acc hacc
        refine ⟨hn, fun k => ?_⟩
        rw [hm k]
        constructor
        · rintro (h | h)
          · exact Or.inl h
          · exact Or.inr (Or.inr h)
        · rintro (h | h | h)
          · exact Or.inl h
          · exact Or.inl (h ▸ hmem)
          · exact Or.inr h
      · rw [if_neg hmem]
        have hacc' : (acc ++ [bucketKey p.y]).Nodup := by
          rw [List.nodup_append]
          refine ⟨hacc, List.nodup_singleton _, ?_⟩
          intro a ha hb
          rw [List.mem_singleton] at hb
          exact hmem (hb ▸ ha)
        obtain ⟨hn, hm⟩ := ih _ hacc'
        refine ⟨hn, fun k => ?_⟩
        rw [hm k]
        simp only [List.mem_append, List.mem_singleton]
        tauto

/-- The key list of the bucket `Map` is duplicate-free. -/
lemma bucketKeysList_nodup (pts : List ProfilePoint) : (bucketKeysList pts).Nodup :=
  (bucketKeysList_aux pts [] List.nodup_nil).1

/-- A key appears in the bucket `Map` iff some scanned point lands in it. -/
lemma mem_bucketKeysList (pts : List ProfilePoint) (k : ℤ) :
    k ∈ bucketKeysList pts ↔ k ∈ pts.map fun p => bucketKey p.y := by
  rw [bucketKeysList, (bucketKeysList_aux pts [] List.nodup_nil).2 k]
  simp

/-- The insertion-ordered key list is a permutation of the sorted key list. -/
lemma bucketKeysList_perm_sorted (pts : List ProfilePoint) :
    (bucketKeysList pts).Perm (sortedBucketKeys pts) := by
  have h1 := bucketKeysList_nodup pts
  have h2 : (sortedBucketKeys pts).Nodup := Finset.sort_nodup _ _
  rw [List.perm_ext_iff_of_nodup h1 h2]
  intro k
  rw [mem_bucketKeysList, sortedBucketKeys, Finset.mem_sort, List.mem_toFinset]

/-- The `reduce`-based bucket average agrees with the spec's mean sample. -/
lemma bucketEntry_eq_spec (pts : List ProfilePoint) (k : ℤ) :
    bucketEntry pts k = specBucketSample pts k := by
  rw [bucketEntry, specBucketSample, bucketRadii, avg_eq_mean]

/-- Sorting the insertion-ordered bucket entries by height yields exactly the
spec's height-sorted bucket samples. -/
lemma merged_sort_eq (pts : List ProfilePoint) :
    List.insertionSort leY ((bucketKeysList pts).map (bucketEntry pts)) =
      mergedProfileSpec pts := by
  have hperm : (List.insertionSort leY ((bucketKeysList pts).map (bucketEntry pts))).Perm
      ((sortedBucketKeys pts).map (bucketEntry pts)) :=
    (List.perm_insertionSort leY _).trans ((bucketKeysList_perm_sorted pts).map _)
  have hspec_sorted : List.Sorted ltY ((sortedBucketKeys pts).map (bucketEntry pts)) := by
    have hkeys : List.Sorted (· < ·) (sortedBucketKeys pts) := Finset.sort_sorted_lt _
    refine List.Pairwise.map _ ?_ hkeys
    intro a b hab
    show (bucketEntry pts a).y < (bucketEntry pts b).y
    show (a : ℝ) * 0.5 < (b : ℝ) * 0.5
    have hc : (a : ℝ) < (b : ℝ) := Int.cast_lt.2 hab
    nlinarith
  have hykeys_inj : Function.Injective fun k : ℤ => (bucketEntry pts k).y := by
    intro a b hab
    have hab' : (a : ℝ) * 0.5 = (b : ℝ) * 0.5 := hab
    have : (a : ℝ) = (b : ℝ) := by nlinarith
    exact_mod_cast this
  have hynodup_spec : (((sortedBucketKeys pts).map (bucketEntry pts)).map fun q => q.y).Nodup := by
    rw [List.map_map]
    exact (Finset.sort_nodup _ _).map hykeys_inj
  have hynodup_src :
      ((List.insertionSort leY ((bucketKeysList pts).map (bucketEntry pts))).map
        fun q => q.y).Nodup :=
    (hperm.map _).nodup_iff.2 hynodup_spec
  have hsrc_sorted :
      List.Sorted ltY (List.insertionSort leY ((bucketKeysList pts).map (bucketEntry pts))) := by
    have hle : List.Sorted leY (List.insertionSort leY ((bucketKeysList pts).map (bucketEntry pts))) :=
      List.sorted_insertionSort leY _
    have hne : List.Pairwise (fun a b : ProfilePoint => a.y ≠ b.y)
        (List.insertionSort leY ((bucketKeysList pts).map (bucketEntry pts))) := by
      rw [List.Nodup, List.pairwise_map] at hynodup_src
      exact hynodup_src
    exact (hle.and hne).imp fun h => lt_of_le_of_ne h.1 h.2
  have hfinal := List.eq_of_perm_of_sorted hperm hsrc_sorted hspec_sorted
  rw [hfinal, mergedProfileSpec]
  exact List.map_congr_left fun k _ => bucketEntry_eq_spec pts k

/-- `mergeProfiles` computes the smoothed version of the spec's bucket merge. -/
lemma mergeProfiles_eq_spec (profiles : List (List ProfilePoint)) :
    mergeProfiles profiles = smoothProfile (mergedProfileSpec profiles.flatten) 7 := by
  show smoothProfile (List.insertionSort leY
    ((bucketKeysList profiles.flatten).map (bucketEntry profiles.flatten))) 7 = _
  rw [merged_sort_eq]

/-! ### Helper lemmas: permutation invariance of the bucket merge -/

/-- The sorted key list only depends on the multiset of points. -/
lemma sortedBucketKeys_perm_inv {pts pts' : List ProfilePoint} (h : pts.Perm pts') :
    sortedBucketKeys pts = sortedBucketKeys pts' := by
  rw [sortedBucketKeys, sortedBucketKeys]
  congr 1
  ext k
  rw [List.mem_toFinset, List.mem_toFinset]
  exact (h.map fun p => bucketKey p.y).mem_iff

/-- A bucket's mean sample only depends on the multiset of points. -/
lemma specBucketSample_perm_inv {pts pts' : List ProfilePoint} (h : pts.Perm pts') (k : ℤ) :
    specBucketSample pts k = specBucketSample pts' k := by
  have hf := (h.filter (fun point => bucketKey point.y == k)).map fun q => q.r
  rw [specBucketSample, specBucketSample, mean, mean, hf.sum_eq, hf.length_eq]

/-- The spec's merged profile only depends on the multiset of points. -/
lemma mergedProfileSpec_perm_inv {pts pts' : List ProfilePoint} (h : pts.Perm pts') :
    mergedProfileSpec pts = mergedProfileSpec pts' := by
  rw [mergedProfileSpec, mergedProfileSpec, sortedBucketKeys_perm_inv h]
  exact List.map_congr_left fun k _ => specBucketSample_perm_inv h k

/-- The merged profile has nonnegative radii whenever the input radii are
nonnegative. -/
lemma mergeProfiles_nonneg (profiles : List (List ProfilePoint))
    (h : ∀ q ∈ profiles.flatten, 0 ≤ q.r) : ∀ q ∈ mergeProfiles profiles, 0 ≤ q.r := by
  rw [mergeProfiles_eq_spec]
  apply smoothProfile_nonneg
  intro q hq
  rw [mergedProfileSpec, List.mem_map] at hq
  obtain ⟨k, _, rfl⟩ := hq
  show 0 ≤ mean ((profiles.flatten.filter fun point => bucketKey point.y == k).map fun q => q.r)
  rw [mean]
  apply div_nonneg
  · apply List.sum_nonneg
    intro x hx
    rw [List.mem_map] at hx
    obtain ⟨q, hq, rfl⟩ := hx
    exact h q (List.mem_of_mem_filter hq)
  · exact Nat.cast_nonneg _

/-- The merged profile is sorted ascending by height. -/
lemma mergeProfiles_sorted (profiles : List (List ProfilePoint)) :
    List.Sorted leY (mergeProfiles profiles) :=
  smoothProfile_sorted _ _ (List.sorted_insertionSort leY _)

/-! ### Helper lemmas: window slices -/

/-- A mapped slice sum is a window sum of indexed reads. -/
lemma slice_map_sum (l : List ProfilePoint) (f : ProfilePoint → ℝ) (s c : ℕ)
    (h : s + c ≤ l.length) :
    (((l.drop s).take c).map f).sum = ∑ j ∈ Finset.Ico s (s + c), f (l.getD j ⟨0, 0⟩) := by
  have heq : ((l.drop s).take c).map f = (List.range c).map fun k => f (l.getD (s + k) ⟨0, 0⟩) := by
    apply List.ext_getElem
    · simp only [List.length_map, List.length_take, List.length_drop, List.length_range]
      omega
    · intro k h1 h2
      rw [List.getElem_map, List.getElem_take, List.getElem_drop, List.getElem_map,
        List.getElem_range]
      have hk : k < c := by
        simp only [List.length_map, List.length_take, List.length_drop] at h1
        omega
      rw [List.getD_eq_getElem l _ (by omega)]
  rw [heq, list_range_map_sum, Finset.sum_Ico_eq_sum_range, Nat.add_sub_cancel_left]

/-- The mean over a clipped window slice equals the window mean of indexed
reads. -/
lemma windowSlice_mean (p : List ProfilePoint) (i w : ℕ) (hi : i < p.length)
    (f : ProfilePoint → ℝ) :
    mean ((windowSlice p i w).map f) =
      meanIco (fun j => f (p.getD j ⟨0, 0⟩)) (i - w / 2) (min p.length (i + w / 2 + 1)) := by
  have h1 : min p.length (i + w / 2 + 1) ≤ p.length := min_le_left _ _
  have h3 : i < min p.length (i + w / 2 + 1) := lt_min hi (by omega)
  have hc : (i - w / 2) + (min p.length (i + w / 2 + 1) - (i - w / 2)) ≤ p.length := by omega
  have hslice : windowSlice p i w =
      (p.drop (i - w / 2)).take (min p.length (i + w / 2 + 1) - (i - w / 2)) := rfl
  rw [mean, hslice, slice_map_sum p f _ _ hc]
  have he : (i - w / 2) + (min p.length (i + w / 2 + 1) - (i - w / 2)) =
      min p.length (i + w / 2 + 1) := by omega
  rw [he, meanIco]
  congr 1
  rw [List.length_map, List.length_take, List.length_drop]
  have : min (min p.length (i + w / 2 + 1) - (i - w / 2)) (p.length - (i - w / 2)) =
      min p.length (i + w / 2 + 1) - (i - w / 2) := by omega
  rw [this]

/-! ### Helper lemmas: grid extrema -/

/-- Every in-range grid value belongs to the value set. -/
lemma gridVals_mem (g : Grid) {i j : ℕ} (hi : i < g.h) (hj : j < g.w) :
    g.val i j ∈ gridVals g := by
  rw [gridVals, Finset.mem_image]
  exact ⟨(i, j), Finset.mem_product.2 ⟨Finset.mem_range.2 hi, Finset.mem_range.2 hj⟩, rfl⟩

/-- A grid with positive dimensions has a nonempty value set. -/
lemma gridVals_nonempty (g : Grid) (hh : 0 < g.h) (hw : 0 < g.w) :
    (gridVals g).Nonempty :=
  ⟨g.val 0 0, gridVals_mem g hh hw⟩

/-- `gridMin` bounds every in-range value from below. -/
lemma gridMin_le (g : Grid) {i j : ℕ} (hi : i < g.h) (hj : j < g.w) :
    gridMin g ≤ g.val i j := by
  rw [gridMin, dif_pos (gridVals_nonempty g (Nat.pos_of_ne_zero (by omega)) (Nat.pos_of_ne_zero (by omega)))]
  exact Finset.min'_le _ _ (gridVals_mem g hi hj)

/-- `gridMax` bounds every in-range value from above. -/
lemma le_gridMax (g : Grid) {i j : ℕ} (hi : i < g.h) (hj : j < g.w) :
    g.val i j ≤ gridMax g := by
  rw [gridMax, dif_pos (gridVals_nonempty g (Nat.pos_of_ne_zero (by omega)) (Nat.pos_of_ne_zero (by omega)))]
  exact Finset.le_max' _ _ (gridVals_mem g hi hj)

/-- On a grid with positive dimensions the minimum is at most the maximum. -/
lemma gridMin_le_gridMax (g : Grid) (hh : 0 < g.h) (hw : 0 < g.w) :
    gridMin g ≤ gridMax g :=
  le_trans (gridMin_le g hh hw) (le_gridMax g hh hw)

/-! ### Claims -/

/-- C3: `mergeProfiles` buckets two samples together exactly when
`Math.round(y / 0.5)` agrees, emits one mean-radius sample per non-empty
bucket at `y = bucketIndex * 0.5`, sorted ascending by `y`, and re-smooths the
result with the window-7 boundary-shrinking moving average. -/
theorem C3_mergeProfiles_bucketing (profiles : List (List ProfilePoint)) :
    mergeProfiles profiles = smoothProfile (mergedProfileSpec profiles.flatten) 7 ∧
    (∀ (points : List ProfilePoint) (k : ℤ),
      bucketRadii points k =
        (points.filter fun point => round (point.y / 0.5) == k).map fun q => q.r) ∧
    (∀ p q : ProfilePoint,
      bucketKey p.y = bucketKey q.y ↔ round (p.y / 0.5) = round (q.y / 0.5)) :=
  ⟨mergeProfiles_eq_spec profiles, fun _ _ => rfl, fun _ _ => Iff.rfl⟩

/-- C5: `mergeProfiles` is invariant under permutations of its input profile
list (the bucket average, sorting and smoothing only depend on the multiset of
flattened samples). -/
theorem C5_mergeProfiles_perm_invariant (ps ps' : List (List ProfilePoint))
    (h : ps.Perm ps') : mergeProfiles ps = mergeProfiles ps' := by
  rw [mergeProfiles_eq_spec, mergeProfiles_eq_spec, mergedProfileSpec_perm_inv h.flatten]

theorem C5_witness :
    mergeProfiles [[{ r := 1, y := 0 }], [{ r := 2, y := 1 }]] =
      mergeProfiles [[{ r := 2, y := 1 }], [{ r := 1, y := 0 }]] :=
  C5_mergeProfiles_perm_invariant _ _ (List.Perm.swap _ _ _)

/-- C7: every profile produced by the engine is sorted ascending by `y`; the
extracted profile always has nonnegative radii, and the merged profile has
nonnegative radii whenever its input samples do (as the engine's inputs,
being extracted profiles, always do). -/
theorem C7_profiles_sorted_nonneg :
    (∀ pts : List Point3, List.Sorted leY (extractSymmetryProfile pts) ∧
      ∀ q ∈ extractSymmetryProfile pts, 0 ≤ q.r) ∧
    (∀ profiles : List (List ProfilePoint), (∀ q ∈ profiles.flatten, 0 ≤ q.r) →
      List.Sorted leY (mergeProfiles profiles) ∧ ∀ q ∈ mergeProfiles profiles, 0 ≤ q.r) :=
  ⟨fun pts => ⟨extractSymmetryProfile_sorted pts, extractSymmetryProfile_nonneg pts⟩,
   fun profiles h => ⟨mergeProfiles_sorted profiles, mergeProfiles_nonneg profiles h⟩⟩

theorem C7_witness :
    List.Sorted leY (mergeProfiles [[{ r := 1, y := 0 }]]) := by
  refine (C7_profiles_sorted_nonneg.2 [[{ r := 1, y := 0 }]] ?_).1
  intro q hq
  simp only [List.flatten, List.append_nil, List.mem_singleton] at hq
  rw [hq]
  norm_num

/-- C8: with no intervening mutation, calling `reconstruct()` twice yields the
same mesh, and the call leaves the stored fragment list unchanged. -/
theorem C8_reconstruct_idempotent (fragments : List Fragment) (m : Mesh)
    (s' : List Fragment) (h : reconstructMethod fragments = (m, s')) :
    s' = fragments ∧ reconstructMethod s' = (m, s') := by
  unfold reconstructMethod at h ⊢
  obtain ⟨h1, h2⟩ := Prod.mk.injEq .. ▸ h
  subst h2
  exact ⟨rfl, by rw [h1]⟩

theorem C8_witness :
    ([] : List Fragment) = [] ∧ reconstructMethod ([] : List Fragment) = (buildDefaultPottery, []) :=
  C8_reconstruct_idempotent [] buildDefaultPottery [] rfl

/-- C9: the fragment-constraint hook is a no-op: `reconstruct` returns exactly
`buildMeshFromProfile` of the merged profile, and the output only depends on
the fragments' point lists, not on their type labels. -/
theorem C9_constraints_noop (frags : List Fragment) :
    (∀ mesh, applyFragmentConstraints frags mesh = mesh) ∧
    (frags.length ≠ 0 → reconstruct frags =
      buildMeshFromProfile
        (mergeProfiles (frags.map fun fragment => extractSymmetryProfile fragment.points)) 64) ∧
    (∀ frags' : List Fragment,
      frags.map (fun f => f.points) = frags'.map (fun f => f.points) →
      reconstruct frags = reconstruct frags') := by
  refine ⟨fun mesh => rfl, fun h => ?_, fun frags' hmap => ?_⟩
  · unfold reconstruct
    rw [if_neg h]
    rfl
  · have hlen : frags.length = frags'.length := by
      have hc := congrArg List.length hmap
      simpa using hc
    by_cases h0 : frags.length = 0
    · have h0' : frags'.length = 0 := by omega
      unfold reconstruct
      rw [if_pos h0, if_pos h0']
    · have h0' : ¬frags'.length = 0 := by omega
      unfold reconstruct
      rw [if_neg h0, if_neg h0']
      show applyFragmentConstraints frags
          (buildMeshFromProfile
            (mergeProfiles (frags.map fun fragment => extractSymmetryProfile fragment.points))) =
        applyFragmentConstraints frags'
          (buildMeshFromProfile
            (mergeProfiles (frags'.map fun fragment => extractSymmetryProfile fragment.points)))
      have hprofiles : frags.map (fun fragment => extractSymmetryProfile fragment.points) =
          frags'.map fun fragment => extractSymmetryProfile fragment.points := by
        have h1 : frags.map (fun fragment => extractSymmetryProfile fragment.points) =
            (frags.map fun f => f.points).map extractSymmetryProfile := by
          rw [List.map_map]; rfl
        have h2 : frags'.map (fun fragment => extractSymmetryProfile fragment.points) =
            (frags'.map fun f => f.points).map extractSymmetryProfile := by
          rw [List.map_map]; rfl
        rw [h1, h2, hmap]
      rw [hprofiles]
      rfl

theorem C9_witness :
    ([{ points := [], type := "rim", confidence := 0.5, timestamp := 0 }] : List Fragment).map
        (fun f => f.points) =
      ([{ points := [], type := "base", confidence := 0.5, timestamp := 0 }] : List Fragment).map
        (fun f => f.points) ∧
    reconstruct [{ points := [], type := "rim", confidence := 0.5, timestamp := 0 }] =
      reconstruct [{ points := [], type := "base", confidence := 0.5, timestamp := 0 }] :=
  ⟨rfl, (C9_constraints_noop _).2.2 _ rfl⟩

/-- C10 counterexample: the claim as stated fails when the fragment type is
supplied as the empty string: JavaScript `||` treats `""` as falsy, so the
stored type is `"unknown"`, not the supplied `""`. -/
theorem C10_counterexample :
    ¬(addFragment [] [] { fragmentType := some "", confidence := none } 0 =
      [{ points := [], type := "", confidence := 0.5, timestamp := 0 }]) := by
  intro h
  have h2 := congrArg
    (fun l : List Fragment =>
      (l.getD 0 { points := [], type := "x", confidence := 0, timestamp := 0 }).type) h
  simp only [addFragment, jsOrString, List.nil_append, List.getD] at h2
  simp at h2

/-- C10 (amended): `addFragment` appends one fragment whose type is the
supplied `fragmentType` unless it is absent or the empty string (both falsy,
replaced by `"unknown"`), and whose confidence is the supplied value unless it
is absent or exactly `0` (both falsy, replaced by `0.5`); in particular a
stored confidence of `0` is unrepresentable. -/
theorem C10_addFragment_spec (s : List Fragment) (pc : List Point3)
    (ft : Option String) (conf : Option ℝ) (now : ℕ) :
    addFragment s pc { fragmentType := ft, confidence := conf } now =
      s ++ [{ points := pc, type := jsOrString ft "unknown",
              confidence := jsOrReal conf 0.5, timestamp := now }] ∧
    (ft = none → jsOrString ft "unknown" = "unknown") ∧
    (ft = some "" → jsOrString ft "unknown" = "unknown") ∧
    (∀ t, ft = some t → t ≠ "" → jsOrString ft "unknown" = t) ∧
    (conf = none → jsOrReal conf 0.5 = 0.5) ∧
    (conf = some 0 → jsOrReal conf 0.5 = 0.5) ∧
    (∀ c, conf = some c → c ≠ 0 → jsOrReal conf 0.5 = c) ∧
    jsOrReal conf 0.5 ≠ 0 := by
  refine ⟨rfl, ?_, ?_, ?_, ?_, ?_, ?_, ?_⟩
  · rintro rfl; rfl
  · rintro rfl; rfl
  · rintro t rfl ht
    simp [jsOrString, ht]
  · rintro rfl; rfl
  · rintro rfl
    simp [jsOrReal]
  · rintro c rfl hc
    simp [jsOrReal, hc]
  · match conf with
    | none => norm_num [jsOrReal]
    | some v =>
        by_cases hv : v = 0
        · subst hv
          norm_num [jsOrReal]
        · simp [jsOrReal, hv]

theorem C10_witness :
    jsOrReal (some (0 : ℝ)) 0.5 = 0.5 ∧ jsOrString (some "") "unknown" = "unknown" :=
  ⟨(C10_addFragment_spec [] [] (some "") (some 0) 0).2.2.2.2.2.1 rfl,
   (C10_addFragment_spec [] [] (some "") (some 0) 0).2.2.1 rfl⟩

/-- The extracted profile of an empty point list is empty. -/
lemma extractSymmetryProfile_nil : extractSymmetryProfile [] = [] := rfl

/-- C4: `reconstruct()` on an empty store, `buildMeshFromProfile` on a profile
with fewer than 3 samples, and `reconstruct()` on a store whose fragments all
have empty point lists, all return the identical default-vase mesh: the lathe
of the 11-sample profile `r = 2 + 0.5*sin(pi*t)`, `t = i/10`, `y = 0..10`. -/
theorem C4_default_fallback :
    reconstruct [] = buildDefaultPottery ∧
    (∀ (profile : List ProfilePoint) (segments : ℕ), profile.length < 3 →
      buildMeshFromProfile profile segments = buildDefaultPottery) ∧
    (∀ frags : List Fragment, (∀ f ∈ frags, f.points = []) →
      reconstruct frags = buildDefaultPottery) ∧
    buildDefaultPottery.lathePoints = ((List.range 11).map fun i : ℕ =>
      { x := 2 + 0.5 * Real.sin (Real.pi * ((i : ℝ) / 10)), y := (i : ℝ) : Vec2 }) ∧
    buildDefaultPottery.lathePoints.length = 11 := by
  have hshort : ∀ (profile : List ProfilePoint) (segments : ℕ), profile.length < 3 →
      buildMeshFromProfile profile segments = buildDefaultPottery := by
    intro profile segments h
    unfold buildMeshFromProfile
    rw [if_pos]
    rw [List.length_map]
    exact h
  have hlen11 : buildDefaultPottery.lathePoints.length = 11 := by
    show ((List.range 11).map fun i : ℕ =>
      { x := 2 + Real.sin ((i : ℝ) / 10 * Real.pi) * 0.5, y := (i : ℝ) : Vec2 }).length = 11
    rw [List.length_map, List.length_range]
  refine ⟨rfl, hshort, ?_, ?_, hlen11⟩
  · intro frags hpts
    by_cases h0 : frags.length = 0
    · unfold reconstruct
      rw [if_pos h0]
    · unfold reconstruct
      rw [if_neg h0]
      show applyFragmentConstraints frags
          (buildMeshFromProfile
            (mergeProfiles (frags.map fun fragment => extractSymmetryProfile fragment.points))) =
        buildDefaultPottery
      have hflat : (frags.map fun fragment => extractSymmetryProfile fragment.points).flatten = [] := by
        rw [List.flatten_eq_nil_iff]
        intro l hl
        rw [List.mem_map] at hl
        obtain ⟨f, hf, rfl⟩ := hl
        rw [hpts f hf, extractSymmetryProfile_nil]
      have hmergedSpec : mergedProfileSpec [] = [] := by
        simp [mergedProfileSpec, sortedBucketKeys]
      have hmerge : mergeProfiles (frags.map fun fragment => extractSymmetryProfile fragment.points) = [] := by
        rw [mergeProfiles_eq_spec, hflat, hmergedSpec]
        rfl
      rw [hmerge, hshort [] 64 (by simp)]
      rfl
  · show ((List.range 11).map fun i : ℕ =>
        { x := 2 + Real.sin ((i : ℝ) / 10 * Real.pi) * 0.5, y := (i : ℝ) : Vec2 }) = _
    refine List.map_congr_left fun i _ => ?_
    have h1 : (i : ℝ) / 10 * Real.pi = Real.pi * ((i : ℝ) / 10) := mul_comm _ _
    simp only [Vec2.mk.injEq]
    refine ⟨?_, trivial⟩
    rw [h1]
    ring

theorem C4_witness :
    ([] : List ProfilePoint).length < 3 ∧ buildMeshFromProfile [] 64 = buildDefaultPottery :=
  ⟨by simp, C4_default_fallback.2.1 [] 64 (by simp)⟩

/-- C6: `extractProfile` maps every point to `{r = sqrt(x^2 + z^2), y}`, sorts
the pairs ascending by `y`, and smooths with window 5, each output sample
being the mean of the window centered at its index, shrunk at the profile
boundaries; profiles shorter than the window are returned unsmoothed. -/
theorem C6_extractProfile_spec (pts : List Point3) :
    (List.insertionSort leY (pts.map fun point =>
        { r := Real.sqrt (point.x * point.x + point.z * point.z), y := point.y : ProfilePoint })).Perm
      (pts.map fun point =>
        { r := Real.sqrt (point.x * point.x + point.z * point.z), y := point.y : ProfilePoint }) ∧
    List.Sorted leY (List.insertionSort leY (pts.map fun point =>
        { r := Real.sqrt (point.x * point.x + point.z * point.z), y := point.y : ProfilePoint })) ∧
    extractSymmetryProfile pts = smoothProfile (List.insertionSort leY (pts.map fun point =>
        { r := Real.sqrt (point.x * point.x + point.z * point.z), y := point.y : ProfilePoint })) 5 ∧
    (pts.length < 5 → extractSymmetryProfile pts = List.insertionSort leY (pts.map fun point =>
        { r := Real.sqrt (point.x * point.x + point.z * point.z), y := point.y : ProfilePoint })) ∧
    (5 ≤ pts.length → (extractSymmetryProfile pts).length = pts.length ∧
      ∀ i, i < pts.length →
        (extractSymmetryProfile pts).getD i ⟨0, 0⟩ =
          { r := mean ((windowSlice (List.insertionSort leY (pts.map fun point =>
              { r := Real.sqrt (point.x * point.x + point.z * point.z), y := point.y
                : ProfilePoint })) i 5).map fun q => q.r),
            y := mean ((windowSlice (List.insertionSort leY (pts.map fun point =>
              { r := Real.sqrt (point.x * point.x + point.z * point.z), y := point.y
                : ProfilePoint })) i 5).map fun q => q.y) }) := by
  have hsrtlen : (List.insertionSort leY (pts.map fun point =>
      { r := Real.sqrt (point.x * point.x + point.z * point.z), y := point.y
        : ProfilePoint })).length = pts.length := by
    rw [List.length_insertionSort, List.length_map]
  refine ⟨List.perm_insertionSort leY _, List.sorted_insertionSort leY _, rfl, ?_, ?_⟩
  · intro h5
    show smoothProfile _ 5 = _
    unfold smoothProfile
    rw [if_pos]
    omega
  · intro h5
    have hw : ¬(List.insertionSort leY (pts.map fun point =>
        { r := Real.sqrt (point.x * point.x + point.z * point.z), y := point.y
          : ProfilePoint })).length < 5 := by omega
    constructor
    · show (smoothProfile _ 5).length = _
      rw [smoothProfile_length]
      exact hsrtlen
    · intro i hi
      have hi' : i < (List.insertionSort leY (pts.map fun point =>
          { r := Real.sqrt (point.x * point.x + point.z * point.z), y := point.y
            : ProfilePoint })).length := by omega
      show (smoothProfile _ 5).getD i ⟨0, 0⟩ = _
      rw [smoothProfile_getD _ 5 hw i hi', windowSlice_mean _ i 5 hi', windowSlice_mean _ i 5 hi']

theorem C6_witness :
    ([(⟨3, 7, 4⟩ : Point3)].length < 5) ∧
    extractSymmetryProfile [(⟨3, 7, 4⟩ : Point3)] =
      List.insertionSort leY ([(⟨3, 7, 4⟩ : Point3)].map fun point =>
        { r := Real.sqrt (point.x * point.x + point.z * point.z), y := point.y : ProfilePoint }) :=
  ⟨by simp, (C6_extractProfile_spec [⟨3, 7, 4⟩]).2.2.2.1 (by simp)⟩

/-- C1: on a valid (positive-dimension) raster image an initialized
`estimateDepth` succeeds, the depth field has the image's dimensions, every
in-range value lies in `[0, 1]`, and the epsilon-guarded normalization
denominator `max - min + 1e-7` is strictly positive, so it never divides by
zero, in particular on a perfectly flat smoothed field. -/
theorem C1_estimateDepth_dims_range (img : RGBImage) (hh : 0 < img.h) (hw : 0 < img.w) :
    estimateDepth true img = Except.ok (estimateDepthCore img) ∧
    (estimateDepthCore img).h = img.h ∧ (estimateDepthCore img).w = img.w ∧
    (∀ i j, i < img.h → j < img.w →
      0 ≤ (estimateDepthCore img).val i j ∧ (estimateDepthCore img).val i j ≤ 1) ∧
    0 < gridMax (smoothedDepth img) - gridMin (smoothedDepth img) + 1e-7 := by
  have hh' : 0 < (smoothedDepth img).h := hh
  have hw' : 0 < (smoothedDepth img).w := hw
  have heps : (0 : ℝ) < 1e-7 := by norm_num
  have hden : 0 < gridMax (smoothedDepth img) - gridMin (smoothedDepth img) + 1e-7 := by
    have h1 := gridMin_le_gridMax (smoothedDepth img) hh' hw'
    linarith
  refine ⟨rfl, rfl, rfl, ?_, hden⟩
  intro i j hi hj
  have hi' : i < (smoothedDepth img).h := hi
  have hj' : j < (smoothedDepth img).w := hj
  have hmin := gridMin_le (smoothedDepth img) hi' hj'
  have hmax := le_gridMax (smoothedDepth img) hi' hj'
  constructor
  · show 0 ≤ ((smoothedDepth img).val i j - gridMin (smoothedDepth img)) /
      (gridMax (smoothedDepth img) - gridMin (smoothedDepth img) + 1e-7)
    apply div_nonneg
    · linarith
    · linarith
  · show ((smoothedDepth img).val i j - gridMin (smoothedDepth img)) /
      (gridMax (smoothedDepth img) - gridMin (smoothedDepth img) + 1e-7) ≤ 1
    rw [div_le_one hden]
    linarith

theorem C1_witness :
    0 ≤ (estimateDepthCore ⟨1, 1, fun _ _ _ => 0⟩).val 0 0 ∧
    (estimateDepthCore ⟨1, 1, fun _ _ _ => 0⟩).val 0 0 ≤ 1 :=
  (C1_estimateDepth_dims_range ⟨1, 1, fun _ _ _ => 0⟩ Nat.one_pos Nat.one_pos).2.2.2.1
    0 0 Nat.one_pos Nat.one_pos

/-- C2: `depthToPointCloud` emits one point per pixel whose scaled depth
`z = depth[v][u] * 10` exceeds `0.1`, back-projected as
`x = (u - cx) * z / fx`, `y = (v - cy) * z / fy`; no emitted point has
`z <= 0.1`, and absent intrinsics resolve to
`fx = cx = width/2`, `fy = cy = height/2`. -/
theorem C2_depthToPointCloud_spec (d : Grid) (intr : Option Intrinsics) :
    (∀ p ∈ depthToPointCloud d intr, 0.1 < p.z) ∧
    (∀ v u, v < d.h → u < d.w → 0.1 < d.val v u * 10 →
      ({ x := ((u : ℝ) - (resolveIntrinsics intr d.w d.h).cx) * (d.val v u * 10) /
            (resolveIntrinsics intr d.w d.h).fx,
         y := ((v : ℝ) - (resolveIntrinsics intr d.w d.h).cy) * (d.val v u * 10) /
            (resolveIntrinsics intr d.w d.h).fy,
         z := d.val v u * 10 } : Point3) ∈ depthToPointCloud d intr) ∧
    ((depthToPointCloud d intr).length =
      ∑ v ∈ Finset.range d.h, ∑ u ∈ Finset.range d.w,
        if 0.1 < d.val v u * 10 then 1 else 0) ∧
    (intr = none → resolveIntrinsics intr d.w d.h =
      { fx := (d.w : ℝ) / 2, fy := (d.h : ℝ) / 2, cx := (d.w : ℝ) / 2, cy := (d.h : ℝ) / 2 }) := by
  refine ⟨?_, ?_, ?_, ?_⟩
  · intro p hp
    simp only [depthToPointCloud, List.mem_flatMap, List.mem_range] at hp
    obtain ⟨v, hv, u, hu, hp⟩ := hp
    by_cases hz : (0.1 : ℝ) < d.val v u * 10
    · rw [if_pos hz, List.mem_singleton] at hp
      subst hp
      exact hz
    · rw [if_neg hz] at hp
      exact absurd hp (List.not_mem_nil _)
  · intro v u hv hu hz
    simp only [depthToPointCloud, List.mem_flatMap, List.mem_range]
    refine ⟨v, hv, u, hu, ?_⟩
    rw [if_pos hz]
    exact List.mem_singleton_self _
  · simp only [depthToPointCloud]
    rw [List.length_flatMap, list_range_map_sum]
    refine Finset.sum_congr rfl fun v _ => ?_
    rw [Function.comp_apply, List.length_flatMap, list_range_map_sum]
    refine Finset.sum_congr rfl fun u _ => ?_
    rw [Function.comp_apply]
    split_ifs with hc
    · rfl
    · rfl
  · rintro rfl
    rfl

theorem C2_witness :
    ({ x := (((0 : ℕ) : ℝ) - (resolveIntrinsics none 1 1).cx) * ((1 : ℝ) * 10) /
          (resolveIntrinsics none 1 1).fx,
       y := (((0 : ℕ) : ℝ) - (resolveIntrinsics none 1 1).cy) * ((1 : ℝ) * 10) /
          (resolveIntrinsics none 1 1).fy,
       z := (1 : ℝ) * 10 } : Point3) ∈ depthToPointCloud (Grid.mk 1 1 fun _ _ => 1) none := by
  have h := (C2_depthToPointCloud_spec (Grid.mk 1 1 fun _ _ => 1) none).2.1 0 0
    (by norm_num) (by norm_num) (by norm_num)
  exact h
